import Mathlib

/-!
Verification development for the chunked-streaming HTML tokenizer pipeline
(`TransformStream`, carry-over `Buffer`, `Chunk`, the eager state machine's
preview/confirm protocol and the test-token conversion).

Bytes are modelled as natural numbers and byte slices as `List Nat`.
`TransformStream.write` and `TransformStream.endStream` are translated from
`src/transform_stream.rs`; the `Buffer`, `Chunk` and error types, whose code
is not part of the sampled sources, are modelled from the specification.
-/

namespace LolHtml

/-- Modelled from the spec: the recoverable error taxonomy (§7) has exactly
two kinds, a capacity violation on the carry-over buffer and a tokenization
failure inside the state machine. The `errors::Error` type itself is not
among the sampled sources. -/
inductive Error where
  | capacityExceeded
  | tokenizationError
deriving DecidableEq, Repr

/-- Modelled from the spec: the capacity-bounded carry-over buffer (§3, §4.1).
`Buffer` owns a byte store plus a fixed capacity set at construction; its
length never exceeds the capacity. The Rust `base::Buffer` is not among the
sampled sources. -/
structure Buffer where
  bytes : List Nat
  capacity : Nat
deriving DecidableEq, Repr

/-- Modelled from the spec: a fresh buffer with the given capacity. -/
def Buffer.new (cap : Nat) : Buffer := ⟨[], cap⟩

/-- Modelled from the spec (§4.1): `append(data)` fails with a capacity error
if `len(existing) + len(data) > capacity`; otherwise appends in place. On
failure the buffer is unchanged. -/
def Buffer.append (b : Buffer) (data : List Nat) : Except Error Buffer :=
  if b.bytes.length + data.length > b.capacity then Except.error Error.capacityExceeded
  else Except.ok ⟨b.bytes ++ data, b.capacity⟩

/-- Modelled from the spec (§4.1): `init_with(data)` clears the existing
content and fails the same way as `append` when `len(data) > capacity`. -/
def Buffer.init_with (b : Buffer) (data : List Nat) : Except Error Buffer :=
  if data.length > b.capacity then Except.error Error.capacityExceeded
  else Except.ok ⟨data, b.capacity⟩

/-- Modelled from the spec (§4.1): `shrink_to_last(n)` removes the leading
`len - n` bytes, keeping the order of the remaining last `n` bytes. The
spec requires `n <= len`; the requirement is enforced at the call site. -/
def Buffer.shrink_to_last (b : Buffer) (n : Nat) : Buffer :=
  ⟨b.bytes.drop (b.bytes.length - n), b.capacity⟩

/-- Modelled from the spec (§3): a `Chunk` is a byte view plus a flag that
marks whether it is the stream's final segment. The Rust `base::Chunk` is
not among the sampled sources. -/
structure Chunk where
  data : List Nat
  isLast : Bool
deriving DecidableEq, Repr

/-- Modelled from the spec: the `Chunk::last` constructor, wrapping the final
buffered bytes. -/
def Chunk.last (bytes : List Nat) : Chunk := ⟨bytes, true⟩

/-- Modelled from the spec: the `Chunk::last_empty` constructor, a zero-length
final chunk. -/
def Chunk.last_empty : Chunk := ⟨[], true⟩

/-- Modelled from the spec: the plain `From<&[u8]>` conversion used by
`write` (the `.into()` call) wraps a slice into a non-final chunk. -/
def mkWriteChunk (bytes : List Nat) : Chunk := ⟨bytes, false⟩

/-- Modelled from the spec (§4.3): the tokenizer is an opaque stateful
machine; `tokenize(chunk)` either fails or returns the updated state together
with the `blocked_byte_count`, the number of trailing bytes of the chunk it
could not resolve into a complete token. -/
structure TokModel (σ : Type) where
  tokenize : σ → Chunk → Except Error (σ × Nat)

/-- The state of `TransformStream` (src/transform_stream.rs, lines 5-10):
it owns the tokenizer and the buffer and tracks `has_buffered_data` and
`finished`. -/
structure TransformStream (σ : Type) where
  tokenizer : σ
  buffer : Buffer
  has_buffered_data : Bool
  finished : Bool
deriving DecidableEq, Repr

/-- `TransformStream::new` (src/transform_stream.rs, lines 13-20). -/
def TransformStream.new (tokenizerState : σ) (buffer_capacity : Nat) :
    TransformStream σ :=
  ⟨tokenizerState, Buffer.new buffer_capacity, false, false⟩

/-- The outcome of a `write`/`end` call: an `Ok` result, a recoverable
`Error` (carrying the mutated stream state, since the Rust methods take
`&mut self`), or a fatal assertion failure (a Rust panic, which aborts and
returns nothing). -/
inductive WriteResult (σ : Type) where
  | ok (s : TransformStream σ)
  | err (e : Error) (s : TransformStream σ)
  | panicked
deriving DecidableEq, Repr

/-- Chunk selection inside `write` (src/transform_stream.rs, lines 27-32):
with buffered data, append `data` to the buffer and use the buffer's full
contents; otherwise use `data` directly, leaving the buffer untouched.
Returns the (possibly updated) buffer together with the chunk bytes. -/
def TransformStream.writeChunk (s : TransformStream σ) (data : List Nat) :
    Except Error (Buffer × List Nat) :=
  if s.has_buffered_data then
    (s.buffer.append data).map (fun b => (b, b.bytes))
  else
    Except.ok (s.buffer, data)

/-- `TransformStream::write` (src/transform_stream.rs, lines 22-56).
The leading `assert!(!self.finished)` is the `panicked` branch; the slice
`&data[data.len() - blocked_byte_count..]` and `shrink_to_last` panic when
`blocked_byte_count` exceeds the sliced length, which the inner bound checks
model. -/
def TransformStream.write (T : TokModel σ) (s : TransformStream σ)
    (data : List Nat) : WriteResult σ :=
  if s.finished then WriteResult.panicked
  else
    match s.writeChunk data with
    | Except.error e => WriteResult.err e s
    | Except.ok (b1, c) =>
      match T.tokenize s.tokenizer (mkWriteChunk c) with
      | Except.error e => WriteResult.err e { s with buffer := b1 }
      | Except.ok (t', blocked_byte_count) =>
        if 0 < blocked_byte_count then
          if s.has_buffered_data then
            if blocked_byte_count ≤ b1.bytes.length then
              WriteResult.ok
                ⟨t', b1.shrink_to_last blocked_byte_count, true, s.finished⟩
            else WriteResult.panicked
          else
            if blocked_byte_count ≤ data.length then
              match b1.init_with (data.drop (data.length - blocked_byte_count)) with
              | Except.ok b2 => WriteResult.ok ⟨t', b2, true, s.finished⟩
              | Except.error e => WriteResult.err e { s with tokenizer := t' }
            else WriteResult.panicked
        else WriteResult.ok ⟨t', b1, false, s.finished⟩

/-- The final chunk built by `end` (src/transform_stream.rs, lines 64-68):
`Chunk::last` over the buffer's contents when data is pending, otherwise
`Chunk::last_empty`. -/
def TransformStream.endChunkOf (s : TransformStream σ) : Chunk :=
  if s.has_buffered_data then Chunk.last s.buffer.bytes else Chunk.last_empty

/-- `TransformStream::end` (src/transform_stream.rs, lines 58-75). The
leading `assert!(!self.finished)` is the `panicked` branch; `finished` is set
before the final chunk is tokenized, and the final chunk is tokenized exactly
once. -/
def TransformStream.endStream (T : TokModel σ) (s : TransformStream σ) :
    WriteResult σ :=
  if s.finished then WriteResult.panicked
  else
    let s1 : TransformStream σ := { s with finished := true }
    match T.tokenize s.tokenizer s.endChunkOf with
    | Except.error e => WriteResult.err e s1
    | Except.ok (t', _) => WriteResult.ok { s1 with tokenizer := t' }

/-- An instrumented tokenizer whose state is the list of chunks it has been
asked to tokenize, in order; it always succeeds and reports a fixed
`blocked_byte_count` of `k`. Used to observe which chunks `write` and
`endStream` pass to the tokenizer. -/
def chunkLogger (k : Nat) : TokModel (List Chunk) :=
  ⟨fun log c => Except.ok (log ++ [c], k)⟩

/-- The chunk log recorded in a non-panicked outcome of a call driven by
`chunkLogger`. -/
def logOf : WriteResult (List Chunk) → Option (List Chunk)
  | WriteResult.ok s => some s.tokenizer
  | WriteResult.err _ s => some s.tokenizer
  | WriteResult.panicked => none

/-!
The eager state machine's preview/confirm protocol, translated from
`tests/harness/tokenizer_test/runners/eager_sm/parsing_result.rs`. A run of
the preview-mode parse is abstracted as the trace of interactions the eager
scanner has with the harness: tag-preview deliveries (through the tag preview
handler) and invocations of the tag confirmation handler.
-/

/-- An interaction of the eager scanner with the harness: delivery of a tag
preview to the tag preview handler, or an invocation of the registered tag
confirmation handler. The preview payload type is abstract. -/
inductive PreviewEvent (P : Type) where
  | preview (p : P)
  | confirm
deriving DecidableEq, Repr

/-- The harness state during a preview-mode parse: the stored previews and
pending preview of `ParsingResult` (parsing_result.rs, lines 10-15) together
with the shared `pending_preview_confirmed` cell (line 37). -/
structure PState (P : Type) where
  previews : List P
  pending_tag_preview : Option P
  pending_preview_confirmed : Bool
deriving DecidableEq, Repr

/-- `ParsingResult::store_pending_preview` (parsing_result.rs, lines 85-92):
takes the pending preview — `none` models the `expect` panic when there is
none — and pushes it onto the stored previews. -/
def storePendingPreview (s : PState P) : Option (PState P) :=
  match s.pending_tag_preview with
  | some p =>
    some { s with previews := s.previews ++ [p], pending_tag_preview := none }
  | none => none

/-- `ParsingResult::add_tag_preview` (parsing_result.rs, lines 94-105): when
the pending preview was confirmed, store it; then replace the pending preview
with the new one. -/
def addTagPreview (s : PState P) (p : P) (confirmed : Bool) :
    Option (PState P) :=
  if confirmed then
    (storePendingPreview s).map (fun s1 => { s1 with pending_tag_preview := some p })
  else
    some { s with pending_tag_preview := some p }

/-- One interaction step. A preview delivery runs the tag preview handler
(parsing_result.rs, lines 45-53): `add_tag_preview` with the current value of
the confirmation cell, then the cell is reset to `false`. A confirmation runs
the tag confirmation handler (line 69): it sets the cell to `true`. -/
def stepEvent (s : PState P) : PreviewEvent P → Option (PState P)
  | PreviewEvent.preview p =>
    (addTagPreview s p s.pending_preview_confirmed).map
      (fun s1 => { s1 with pending_preview_confirmed := false })
  | PreviewEvent.confirm =>
    some { s with pending_preview_confirmed := true }

/-- Processing of the remaining interaction trace followed by the end-of-parse
check (parsing_result.rs, lines 78-80): when the stream ends with the
confirmation cell set, the pending preview is stored. -/
def runEvents (s : PState P) : List (PreviewEvent P) → Option (PState P)
  | [] =>
    if s.pending_preview_confirmed then storePendingPreview s else some s
  | e :: tr => (stepEvent s e).bind (fun s1 => runEvents s1 tr)

/-- A whole preview-mode parse (parsing_result.rs, `ParsingResult::parse`):
the harness starts with no stored previews, no pending preview and the
confirmation cell clear, processes the interaction trace and performs the
end-of-parse check. -/
def parseRun (tr : List (PreviewEvent P)) : Option (PState P) :=
  runEvents ⟨[], none, false⟩ tr

/-- Specification-side predicate: the preview delivered at the head of the
position right before `tr` counts as confirmed when a confirmation arrives in
`tr` before the next preview delivery (or, trivially, before stream end). -/
def confirmedBeforeNext : List (PreviewEvent P) → Bool
  | [] => false
  | PreviewEvent.confirm :: _ => true
  | PreviewEvent.preview _ :: _ => false

/-- Specification-side function: the previews of a trace that are confirmed
before the next preview arrival or stream end, in delivery order, each
listed once. -/
def confirmedPreviews : List (PreviewEvent P) → List P
  | [] => []
  | PreviewEvent.confirm :: tr => confirmedPreviews tr
  | PreviewEvent.preview p :: tr =>
    if confirmedBeforeNext tr then p :: confirmedPreviews tr
    else confirmedPreviews tr

/-- Environment assumption on the eager scanner: the confirmation handler is
only invoked for a previously delivered preview, so the trace does not begin
with a confirmation. -/
def noLeadingConfirm : List (PreviewEvent P) → Bool
  | PreviewEvent.confirm :: _ => false
  | _ => true

/-!
The lex-result to test-token conversion, translated from `tests/token.rs`
(`impl From<LexResult> for TestToken`, lines 176-231). Spans and the string
decoders are modelled from the spec: token descriptors carry byte spans into
the raw slice of the same tokenize call, and the harness decoders
(`Decoder::new(..).unsafe_null()[.attr_entities()].run()`) are abstracted as
parameters of the conversion.
-/

/-- Modelled from the spec (§3): a byte span into the raw slice supplied in
the same tokenize call. The Rust span type is not among the sampled
sources; only its `as_string`/`as_str` slicing operation is used. -/
structure Span where
  start : Nat
  stop : Nat
deriving DecidableEq, Repr

/-- Modelled from the spec: `as_string(raw)` materializes the span against
the raw slice. -/
def Span.as_string (sp : Span) (raw : List Nat) : List Nat :=
  (raw.take sp.stop).drop sp.start

/-- An attribute descriptor of a `StartTag`: a name span plus a value span
(spec §3). -/
structure AttrDescr where
  name : Span
  value : Span
deriving DecidableEq, Repr

/-- The `TokenDescriptor` variants, as matched by the conversion in
tests/token.rs: `Character`, `Comment`, `StartTag { name, attributes,
self_closing }`, `EndTag { name }`, `Doctype { name, public_id, system_id,
force_quirks }` and `Eof`. -/
inductive TokenDescriptor where
  | character
  | comment
  | startTag (name : Span) (attributes : List AttrDescr) (self_closing : Bool)
  | endTag (name : Span)
  | doctype (name : Option Span) (public_id : Option Span)
      (system_id : Option Span) (force_quirks : Bool)
  | eof
deriving DecidableEq, Repr

/-- A `LexResult`: a token descriptor paired with the optional raw byte
slice it was derived from. -/
structure LexResult where
  token_descr : TokenDescriptor
  raw : Option (List Nat)
deriving DecidableEq, Repr

/-- `TestToken` (tests/token.rs, lines 22-45), with strings as byte lists and
the attribute `HashMap` as the association list built by `hashMapFromIter`. -/
inductive TestToken where
  | character (s : List Nat)
  | comment (s : List Nat)
  | startTag (name : List Nat) (attributes : List (List Nat × List Nat))
      (self_closing : Bool)
  | endTag (name : List Nat)
  | doctype (name : Option (List Nat)) (public_id : Option (List Nat))
      (system_id : Option (List Nat)) (force_quirks : Bool)
  | eof
deriving DecidableEq, Repr

/-- One `HashMap` insertion: a later binding for an already present key
replaces the stored value, otherwise the binding is added. -/
def hashMapInsert (m : List (List Nat × List Nat)) (kv : List Nat × List Nat) :
    List (List Nat × List Nat) :=
  if m.any (fun e => e.1 == kv.1) then
    m.map (fun e => if e.1 == kv.1 then kv else e)
  else m ++ [kv]

/-- `HashMap::from_iter`: successive insertions, so for duplicate keys the
last entry of the iterator wins. -/
def hashMapFromIter (l : List (List Nat × List Nat)) :
    List (List Nat × List Nat) :=
  l.foldl hashMapInsert []

/-- `HashMap` lookup on the association-list model. -/
def hashMapGet (m : List (List Nat × List Nat)) (k : List Nat) :
    Option (List Nat) :=
  (m.find? (fun e => e.1 == k)).map Prod.snd

/-- The conversion `From<LexResult> for TestToken` (tests/token.rs, lines
176-231). `decodeComment` abstracts `Decoder::new(..).unsafe_null().run()`
and `decodeAttrValue` abstracts
`Decoder::new(..).unsafe_null().attr_entities().run()`; `bytes_to_string` is
the identity on the byte-list model. `none` models the `unreachable!` panic
for descriptor/raw pairings not covered by the match. In the `StartTag` arm
the key of every produced attribute entry is `name.as_string(raw)` — the tag
name span — exactly as in the source, and the attribute collection is
iterated in reverse. -/
def lexResultToTestToken (decodeComment decodeAttrValue : List Nat → List Nat)
    (lr : LexResult) : Option TestToken :=
  match lr.token_descr, lr.raw with
  | TokenDescriptor.character, some raw => some (TestToken.character raw)
  | TokenDescriptor.comment, some raw =>
    some (TestToken.comment (decodeComment raw))
  | TokenDescriptor.startTag name attrs self_closing, some raw =>
    some (TestToken.startTag (name.as_string raw)
      (hashMapFromIter (attrs.reverse.map (fun attr =>
        (name.as_string raw, decodeAttrValue (attr.value.as_string raw)))))
      self_closing)
  | TokenDescriptor.endTag name, some raw =>
    some (TestToken.endTag (name.as_string raw))
  | TokenDescriptor.doctype n p sy force_quirks, some raw =>
    some (TestToken.doctype (n.map (fun sp => sp.as_string raw))
      (p.map (fun sp => sp.as_string raw))
      (sy.map (fun sp => sp.as_string raw)) force_quirks)
  | TokenDescriptor.eof, none => some TestToken.eof
  | _, _ => none

/-!
Theorems for the claims.
-/

/-- A successful `append` extends the bytes in place, keeps the capacity and
stays within it. -/
lemma Buffer.append_ok {b b2 : Buffer} {d : List Nat}
    (h : b.append d = Except.ok b2) :
    b2.bytes = b.bytes ++ d ∧ b2.capacity = b.capacity ∧
      b.bytes.length + d.length ≤ b.capacity := by
  unfold Buffer.append at h
  split at h
  · exact Except.noConfusion h
  · next hc =>
    injection h with h
    subst h
    exact ⟨rfl, rfl, le_of_not_lt hc⟩

/-- A successful `init_with` resets the bytes to the given data, keeps the
capacity and stays within it. -/
lemma Buffer.init_with_ok {b b2 : Buffer} {d : List Nat}
    (h : b.init_with d = Except.ok b2) :
    b2.bytes = d ∧ b2.capacity = b.capacity ∧ d.length ≤ b.capacity := by
  unfold Buffer.init_with at h
  split at h
  · exact Except.noConfusion h
  · next hc =>
    injection h with h
    subst h
    exact ⟨rfl, rfl, le_of_not_lt hc⟩

/-- With buffered data, a successful chunk selection appends the new data to
the buffer and yields the buffer's full contents as the chunk bytes. -/
lemma writeChunk_ok_buffered {σ : Type} {s : TransformStream σ}
    {d : List Nat} {b : Buffer} {c : List Nat}
    (hb : s.has_buffered_data = true)
    (h : s.writeChunk d = Except.ok (b, c)) :
    b.bytes = s.buffer.bytes ++ d ∧ c = s.buffer.bytes ++ d ∧
      b.capacity = s.buffer.capacity ∧
      s.buffer.bytes.length + d.length ≤ s.buffer.capacity := by
  unfold TransformStream.writeChunk at h
  rw [if_pos hb] at h
  rcases hap : s.buffer.append d with e | bb <;> rw [hap] at h
  · exact Except.noConfusion h
  · injection h with h
    obtain ⟨h1, h2⟩ := Prod.mk.injEq .. ▸ h
    obtain ⟨hb1, hb2, hb3⟩ := Buffer.append_ok hap
    exact ⟨h1 ▸ hb1, h2 ▸ hb1, h1 ▸ hb2, hb3⟩

/-- Without buffered data, chunk selection passes the raw input through and
leaves the buffer untouched. -/
lemma writeChunk_ok_direct {σ : Type} {s : TransformStream σ} {d : List Nat}
    (hb : s.has_buffered_data = false) :
    s.writeChunk d = Except.ok (s.buffer, d) := by
  unfold TransformStream.writeChunk
  rw [hb]
  rfl

/-- C2: chunk selection in `write`. With buffered data, `write` first appends
`data` to the carry-over buffer and invokes the tokenizer on the buffer's
full contents (the previously buffered bytes followed by `data`); without
buffered data, the tokenizer is invoked directly on `data`, and the chunk
selection performs no buffer mutation before tokenization (it passes the
buffer through unchanged). The instrumented `chunkLogger` tokenizer records
exactly which chunk the tokenizer was invoked on. -/
theorem c2_chunk_selection (s : TransformStream (List Chunk))
    (data : List Nat) (k : Nat) (hfin : s.finished = false) :
    (s.has_buffered_data = true →
      ∀ b1, s.buffer.append data = Except.ok b1 →
        b1.bytes = s.buffer.bytes ++ data ∧
        s.writeChunk data = Except.ok (b1, s.buffer.bytes ++ data) ∧
        (k ≤ s.buffer.bytes.length + data.length →
          logOf (TransformStream.write (chunkLogger k) s data) =
            some (s.tokenizer ++ [mkWriteChunk (s.buffer.bytes ++ data)]))) ∧
    (s.has_buffered_data = false →
      s.writeChunk data = Except.ok (s.buffer, data) ∧
      (k ≤ data.length →
        logOf (TransformStream.write (chunkLogger k) s data) =
          some (s.tokenizer ++ [mkWriteChunk data]))) := by
  constructor
  · intro hb b1 hap
    obtain ⟨h1, _h2, h3⟩ := Buffer.append_ok hap
    have hwc : s.writeChunk data =
        Except.ok (b1, s.buffer.bytes ++ data) := by
      unfold TransformStream.writeChunk
      rw [if_pos hb, hap]
      simp [Except.map, h1]
    refine ⟨h1, hwc, ?_⟩
    intro hk
    rcases Nat.eq_zero_or_pos k with hk0 | hk0
    · subst hk0
      simp [TransformStream.write, hfin, hwc, chunkLogger, logOf]
    · have hkb : k ≤ b1.bytes.length := by
        rw [h1, List.length_append]
        exact hk
      simp [TransformStream.write, hfin, hwc, chunkLogger, logOf, hk0, hb,
        hkb]
  · intro hb
    refine ⟨writeChunk_ok_direct hb, ?_⟩
    intro hk
    rcases Nat.eq_zero_or_pos k with hk0 | hk0
    · subst hk0
      simp [TransformStream.write, hfin, writeChunk_ok_direct hb,
        chunkLogger, logOf]
    · rcases h2 : s.buffer.init_with (data.drop (data.length - k)) with
        e | b2 <;>
      simp [TransformStream.write, hfin, writeChunk_ok_direct hb,
        chunkLogger, logOf, hk0, hk, hb, h2]

/-- C2 witness: a buffered stream appends and tokenizes the buffer contents;
a fresh stream tokenizes the raw data directly. -/
theorem c2_witness :
    logOf (TransformStream.write (chunkLogger 1)
        (TransformStream.mk ([] : List Chunk) (Buffer.mk [5] 10) true false)
        [7, 8]) =
      some (([] : List Chunk) ++ [mkWriteChunk ([5] ++ [7, 8])]) ∧
    logOf (TransformStream.write (chunkLogger 1)
        (TransformStream.new ([] : List Chunk) 10) [7, 8]) =
      some (([] : List Chunk) ++ [mkWriteChunk [7, 8]]) :=
  ⟨((c2_chunk_selection
      (TransformStream.mk ([] : List Chunk) (Buffer.mk [5] 10) true false)
      [7, 8] 1 rfl).1 rfl (Buffer.mk ([5] ++ [7, 8]) 10)
      rfl).2.2 (by decide),
   ((c2_chunk_selection (TransformStream.new ([] : List Chunk) 10)
      [7, 8] 1 rfl).2 rfl).2 (by decide)⟩

/-- C8: under the tokenizer contract that a reported `blocked_byte_count`
never exceeds the length of the tokenized chunk, the carry-over operations
of `write` — the slice of the last `k` bytes of `data` in the direct-input
branch and `shrink_to_last k` in the buffered branch — are in bounds, so a
`write` on a non-finished stream never panics. -/
theorem c8_write_no_panic {σ : Type} (T : TokModel σ)
    (s : TransformStream σ) (data : List Nat)
    (hfin : s.finished = false)
    (hcontract : ∀ (c : Chunk) (t' : σ) (k : Nat),
      T.tokenize s.tokenizer c = Except.ok (t', k) → k ≤ c.data.length) :
    TransformStream.write T s data ≠ WriteResult.panicked := by
  unfold TransformStream.write
  rw [if_neg (by simp [hfin])]
  rcases hwc : s.writeChunk data with e | ⟨b1, c⟩
  · simp
  · rcases htok : T.tokenize s.tokenizer (mkWriteChunk c) with e | ⟨t', k⟩
    · simp [htok]
    · have hk : k ≤ c.length := hcontract (mkWriteChunk c) t' k htok
      rcases Nat.eq_zero_or_pos k with hk0 | hk0
      · subst hk0
        simp [htok]
      · cases hb : s.has_buffered_data
        · have hc : c = data := by
            have h :=
              (writeChunk_ok_direct (s := s) (d := data) hb).symm.trans hwc
            injection h with h
            exact ((Prod.mk.injEq .. ▸ h).2).symm
          have hkd : k ≤ data.length := hc ▸ hk
          rcases h2 : b1.init_with (data.drop (data.length - k)) with
            e | b2 <;>
            simp [htok, hk0, hb, hkd, h2]
        · obtain ⟨x1, x2, _, _⟩ := writeChunk_ok_buffered hb hwc
          have hkb : k ≤ b1.bytes.length := by
            rw [x1, ← x2]
            exact hk
          simp [htok, hk0, hb, hkb]

/-- A tokenizer model that blocks on every chunk in its entirety: it reports
the whole chunk length as the blocked byte count. It satisfies the contract
that the blocked count never exceeds the chunk length. -/
def blockAllTok : TokModel Unit :=
  ⟨fun st c => Except.ok (st, c.data.length)⟩

/-- C8 witness: a concrete non-finished stream with a contract-abiding
tokenizer does not panic. -/
theorem c8_witness :
    (TransformStream.new () 10).finished = false ∧
    TransformStream.write blockAllTok (TransformStream.new () 10) [7, 8] ≠
      WriteResult.panicked :=
  ⟨rfl, c8_write_no_panic blockAllTok (TransformStream.new () 10) [7, 8] rfl
    (fun c t' k h => by
      have hk : (((), c.data.length) : Unit × Nat) = (t', k) := by
        injection h
      cases hk
      exact le_refl _)⟩

/-- C1: carry-over correctness. When a `write` returns `Ok` and the
tokenizer reported a blocked byte count `k > 0` for the tokenized chunk `c`,
the carry-over buffer afterwards holds exactly the last `k` bytes of `c`
(the appended buffer contents in the buffered branch, `data` itself in the
direct branch), `has_buffered_data` is set, and the chunk tokenized by the
next `write(data2)` — when its append succeeds — is exactly those `k` bytes
followed by `data2`, while `end()` would tokenize exactly those `k` bytes as
its final chunk. -/
theorem c1_carry_over {σ : Type} (T : TokModel σ) (s : TransformStream σ)
    (data : List Nat) (b1 : Buffer) (c : List Nat) (t' : σ) (k : Nat)
    (s' : TransformStream σ)
    (hfin : s.finished = false)
    (hwc : s.writeChunk data = Except.ok (b1, c))
    (htok : T.tokenize s.tokenizer (mkWriteChunk c) = Except.ok (t', k))
    (hk0 : 0 < k) (hkn : k ≤ c.length)
    (hok : TransformStream.write T s data = WriteResult.ok s') :
    s'.buffer.bytes = c.drop (c.length - k) ∧
    s'.has_buffered_data = true ∧
    (∀ (data2 : List Nat) (b2 : Buffer) (c2 : List Nat),
      s'.writeChunk data2 = Except.ok (b2, c2) →
        c2 = c.drop (c.length - k) ++ data2) ∧
    s'.endChunkOf = Chunk.last (c.drop (c.length - k)) := by
  cases hb : s.has_buffered_data
  · -- direct-input branch: the chunk is the raw data
    have hcd : c = data ∧ b1 = s.buffer := by
      have h := (writeChunk_ok_direct (s := s) (d := data) hb).symm.trans hwc
      injection h with h
      obtain ⟨h1, h2⟩ := Prod.mk.injEq .. ▸ h
      exact ⟨h2.symm, h1.symm⟩
    obtain ⟨hcd1, hcd2⟩ := hcd
    subst hcd1
    subst hcd2
    rcases hiw : s.buffer.init_with (c.drop (c.length - k)) with e | b2
    · exfalso
      have hw : TransformStream.write T s c =
          WriteResult.err e { s with tokenizer := t' } := by
        simp [TransformStream.write, hfin, writeChunk_ok_direct hb, htok,
          hk0, hkn, hb, hiw]
      rw [hw] at hok
      exact WriteResult.noConfusion hok
    · have hw : TransformStream.write T s c =
          WriteResult.ok ⟨t', b2, true, false⟩ := by
        simp [TransformStream.write, hfin, writeChunk_ok_direct hb, htok,
          hk0, hkn, hb, hiw, hfin]
      rw [hw] at hok
      injection hok with hok
      subst hok
      obtain ⟨y1, _y2, _y3⟩ := Buffer.init_with_ok hiw
      refine ⟨y1, rfl, ?_, ?_⟩
      · intro data2 bb cc h2
        obtain ⟨_, z2, _, _⟩ := writeChunk_ok_buffered rfl h2
        rw [z2]
        simp [y1]
      · unfold TransformStream.endChunkOf
        simp [y1, Chunk.last]
  · -- buffered branch: the chunk is the appended buffer contents
    obtain ⟨x1, x2, _x3, _x4⟩ := writeChunk_ok_buffered hb hwc
    have hkb : k ≤ b1.bytes.length := by
      rw [x1, ← x2]
      exact hkn
    have hw : TransformStream.write T s data =
        WriteResult.ok ⟨t', b1.shrink_to_last k, true, false⟩ := by
      simp [TransformStream.write, hfin, hwc, htok, hk0, hb, hkb]
    rw [hw] at hok
    injection hok with hok
    subst hok
    have hbytes : (b1.shrink_to_last k).bytes = c.drop (c.length - k) := by
      unfold Buffer.shrink_to_last
      rw [x1, ← x2]
    refine ⟨hbytes, rfl, ?_, ?_⟩
    · intro data2 bb cc h2
      obtain ⟨_, z2, _, _⟩ := writeChunk_ok_buffered rfl h2
      rw [z2]
      simp [hbytes]
    · unfold TransformStream.endChunkOf
      simp [hbytes, Chunk.last]

/-- A tokenizer model that always reports one blocked trailing byte. -/
def blockOneTok : TokModel Unit :=
  ⟨fun st _ => Except.ok (st, 1)⟩

/-- C1 witness: writing two bytes with one blocked leaves exactly the last
byte in the carry-over buffer. -/
theorem c1_witness :
    TransformStream.write blockOneTok (TransformStream.new () 10) [10, 20] =
      WriteResult.ok (TransformStream.mk () (Buffer.mk [20] 10) true false) ∧
    (TransformStream.mk () (Buffer.mk [20] 10) true false).buffer.bytes =
      [10, 20].drop ([10, 20].length - 1) :=
  ⟨rfl, (c1_carry_over blockOneTok (TransformStream.new () 10) [10, 20]
    (Buffer.mk [] 10) [10, 20] () 1
    (TransformStream.mk () (Buffer.mk [20] 10) true false) rfl rfl rfl
    (by decide) (by decide) rfl).1⟩

/-- C3: capacity enforcement. From any reachable state (buffer within
capacity), when the unresolved tail of the chunk that `write` would
tokenize exceeds the configured capacity (the tokenizer reports a blocked
count `k` with `capacity < k <= chunk length`), the `write` call returns the
`CapacityExceeded` error — raised by the buffer's `append` in the buffered
branch (the buffered tail plus the new data is then necessarily over
capacity) or by `init_with` in the direct branch — and the buffer is never
grown beyond its capacity. -/
theorem c3_capacity_enforcement {σ : Type} (T : TokModel σ)
    (s : TransformStream σ) (data cbytes : List Nat) (t' : σ) (k : Nat)
    (hfin : s.finished = false)
    (hinv : s.buffer.bytes.length ≤ s.buffer.capacity)
    (hc : cbytes =
      if s.has_buffered_data then s.buffer.bytes ++ data else data)
    (htok : T.tokenize s.tokenizer (mkWriteChunk cbytes) =
      Except.ok (t', k))
    (hkn : k ≤ cbytes.length)
    (hcap : s.buffer.capacity < k) :
    ∃ s', TransformStream.write T s data =
        WriteResult.err Error.capacityExceeded s' ∧
      s'.buffer.bytes.length ≤ s'.buffer.capacity ∧
      s'.buffer.capacity = s.buffer.capacity := by
  cases hb : s.has_buffered_data
  · -- direct branch: init_with on the k-byte tail fails
    rw [hb] at hc
    simp at hc
    subst hc
    have hk0 : 0 < k := lt_of_le_of_lt (Nat.zero_le _) hcap
    have hlen : (cbytes.drop (cbytes.length - k)).length = k := by
      rw [List.length_drop]
      omega
    have hiw : s.buffer.init_with (cbytes.drop (cbytes.length - k)) =
        Except.error Error.capacityExceeded := by
      unfold Buffer.init_with
      rw [if_pos]
      rw [hlen]
      exact hcap
    refine ⟨{ s with tokenizer := t' }, ?_, hinv, rfl⟩
    simp [TransformStream.write, hfin, writeChunk_ok_direct hb, htok, hk0,
      hkn, hb, hiw]
  · -- buffered branch: the append itself fails
    rw [hb] at hc
    simp at hc
    subst hc
    have hsum : s.buffer.capacity < s.buffer.bytes.length + data.length := by
      rw [List.length_append] at hkn
      omega
    have hap : s.buffer.append data = Except.error Error.capacityExceeded := by
      unfold Buffer.append
      rw [if_pos hsum]
    have hwce : s.writeChunk data = Except.error Error.capacityExceeded := by
      unfold TransformStream.writeChunk
      rw [if_pos hb, hap]
      rfl
    exact ⟨s, by simp [TransformStream.write, hfin, hwce], hinv, rfl⟩

/-- C3 witness: a stream with capacity 1 fed three bytes that all stay
blocked fails with the capacity error. -/
theorem c3_witness :
    (TransformStream.new () 1).buffer.bytes.length ≤
      (TransformStream.new () 1).buffer.capacity ∧
    ∃ s', TransformStream.write blockAllTok (TransformStream.new () 1)
        [1, 2, 3] = WriteResult.err Error.capacityExceeded s' ∧
      s'.buffer.bytes.length ≤ s'.buffer.capacity ∧
      s'.buffer.capacity = (TransformStream.new () 1).buffer.capacity :=
  ⟨by decide, c3_capacity_enforcement blockAllTok (TransformStream.new () 1)
    [1, 2, 3] [1, 2, 3] () 3 rfl (by decide) rfl rfl (by decide)
    (by decide)⟩

/-- C6: calling `write` after `end` has been called, or calling `end` on a
finished stream (double-end), aborts with the fatal assertion (`panicked`)
and never returns a recoverable outcome: the `panicked` outcome is distinct
from every `err` (the shape carrying `CapacityExceeded` or
`TokenizationError`) and from every `ok`. -/
theorem c6_write_after_end_panics {σ : Type} (T : TokModel σ)
    (s : TransformStream σ) (data : List Nat) (hfin : s.finished = true) :
    TransformStream.write T s data = WriteResult.panicked ∧
    TransformStream.endStream T s = WriteResult.panicked ∧
    (∀ (e : Error) (s' : TransformStream σ),
      (WriteResult.panicked : WriteResult σ) ≠ WriteResult.err e s') ∧
    (∀ s' : TransformStream σ,
      (WriteResult.panicked : WriteResult σ) ≠ WriteResult.ok s') := by
  refine ⟨?_, ?_, ?_, ?_⟩ <;>
    simp [TransformStream.write, TransformStream.endStream, hfin]

/-- C6 witness: a concrete finished stream on which both calls panic. -/
theorem c6_witness :
    (TransformStream.mk ([] : List Chunk) (Buffer.new 8) false true).finished
        = true ∧
    TransformStream.write (chunkLogger 0)
        (TransformStream.mk ([] : List Chunk) (Buffer.new 8) false true) [1]
      = WriteResult.panicked :=
  ⟨rfl, (c6_write_after_end_panics (chunkLogger 0)
    (TransformStream.mk ([] : List Chunk) (Buffer.new 8) false true) [1]
    rfl).1⟩

/-- C9: the `finished` flag is set before the final chunk is tokenized, so
`end` on a non-finished stream returns either `ok` or `err` with a state
whose `finished` flag is set, and every later `write` or `end` on that state
hits the fatal assertion; a failed `end` is never retryable. -/
theorem c9_end_is_terminal {σ : Type} (T : TokModel σ)
    (s : TransformStream σ) (hfin : s.finished = false) :
    ∃ s' : TransformStream σ,
      (TransformStream.endStream T s = WriteResult.ok s' ∨
        ∃ e, TransformStream.endStream T s = WriteResult.err e s') ∧
      s'.finished = true ∧
      (∀ (T2 : TokModel σ) (data : List Nat),
        TransformStream.write T2 s' data = WriteResult.panicked) ∧
      (∀ T2 : TokModel σ,
        TransformStream.endStream T2 s' = WriteResult.panicked) := by
  rcases h : T.tokenize s.tokenizer s.endChunkOf with e | ⟨t', k⟩
  · refine ⟨{ s with finished := true }, Or.inr ⟨e, ?_⟩, rfl, ?_, ?_⟩
    · simp [TransformStream.endStream, hfin, h]
    · intro T2 data
      simp [TransformStream.write]
    · intro T2
      simp [TransformStream.endStream]
  · refine ⟨{ s with tokenizer := t', finished := true }, Or.inl ?_, rfl,
      ?_, ?_⟩
    · simp [TransformStream.endStream, hfin, h]
    · intro T2 data
      simp [TransformStream.write]
    · intro T2
      simp [TransformStream.endStream]

/-- C9 witness: on a fresh stream, `end` succeeds with a finished state and
a subsequent `write` panics. -/
theorem c9_witness :
    (TransformStream.new ([] : List Chunk) 8).finished = false ∧
    ∃ s' : TransformStream (List Chunk),
      (TransformStream.endStream (chunkLogger 0)
          (TransformStream.new ([] : List Chunk) 8) = WriteResult.ok s' ∨
        ∃ e, TransformStream.endStream (chunkLogger 0)
          (TransformStream.new ([] : List Chunk) 8) = WriteResult.err e s') ∧
      s'.finished = true ∧
      (∀ (T2 : TokModel (List Chunk)) (data : List Nat),
        TransformStream.write T2 s' data = WriteResult.panicked) ∧
      (∀ T2 : TokModel (List Chunk),
        TransformStream.endStream T2 s' = WriteResult.panicked) :=
  ⟨rfl, c9_end_is_terminal (chunkLogger 0)
    (TransformStream.new ([] : List Chunk) 8) rfl⟩

/-- C4: `end` on a non-finished stream tokenizes exactly one final chunk —
`Chunk.last` over the buffer's contents when data is buffered, otherwise
`Chunk.last_empty` — sets `finished`, and the final chunk is marked last,
while every chunk `write` passes to the tokenizer is built by `mkWriteChunk`
and is not marked last; so only `end` ever hands the tokenizer a last chunk
(and `Eof`, emitted only for a last chunk, can only come from `end`). -/
theorem c4_end_final_chunk (s : TransformStream (List Chunk)) (k : Nat)
    (hfin : s.finished = false) :
    (s.endChunkOf =
      if s.has_buffered_data then Chunk.last s.buffer.bytes
      else Chunk.last_empty) ∧
    s.endChunkOf.isLast = true ∧
    (∃ s', TransformStream.endStream (chunkLogger k) s = WriteResult.ok s' ∧
      s'.tokenizer = s.tokenizer ++ [s.endChunkOf] ∧ s'.finished = true) ∧
    (∀ bytes : List Nat, (mkWriteChunk bytes).isLast = false) := by
  refine ⟨rfl, ?_, ?_, fun _ => rfl⟩
  · unfold TransformStream.endChunkOf
    split <;> rfl
  · refine ⟨{ s with
                tokenizer := s.tokenizer ++ [s.endChunkOf],
                finished := true }, ?_, rfl, rfl⟩
    simp [TransformStream.endStream, hfin, chunkLogger]

/-- C4 witness: on a concrete buffered stream, `end` tokenizes exactly the
last chunk over the buffer contents. -/
theorem c4_witness :
    (TransformStream.mk ([] : List Chunk) (Buffer.mk [5] 8) true
        false).endChunkOf.isLast = true ∧
    ∃ s', TransformStream.endStream (chunkLogger 0)
          (TransformStream.mk ([] : List Chunk) (Buffer.mk [5] 8) true false)
        = WriteResult.ok s' ∧
      s'.tokenizer =
        ([] : List Chunk) ++
          [(TransformStream.mk ([] : List Chunk) (Buffer.mk [5] 8) true
            false).endChunkOf] ∧
      s'.finished = true :=
  ⟨(c4_end_final_chunk
      (TransformStream.mk ([] : List Chunk) (Buffer.mk [5] 8) true false) 0
      rfl).2.1,
   (c4_end_final_chunk
      (TransformStream.mk ([] : List Chunk) (Buffer.mk [5] 8) true false) 0
      rfl).2.2.1⟩

lemma confirmedBeforeNext_nil {P : Type} :
    confirmedBeforeNext ([] : List (PreviewEvent P)) = false := rfl

lemma confirmedBeforeNext_confirm {P : Type} (tr : List (PreviewEvent P)) :
    confirmedBeforeNext (PreviewEvent.confirm :: tr) = true := rfl

lemma confirmedBeforeNext_preview {P : Type} (q : P)
    (tr : List (PreviewEvent P)) :
    confirmedBeforeNext (PreviewEvent.preview q :: tr) = false := rfl

lemma confirmedPreviews_nil {P : Type} :
    confirmedPreviews ([] : List (PreviewEvent P)) = [] := rfl

lemma confirmedPreviews_confirm {P : Type} (tr : List (PreviewEvent P)) :
    confirmedPreviews (PreviewEvent.confirm :: tr) = confirmedPreviews tr :=
  rfl

lemma confirmedPreviews_preview {P : Type} (p : P)
    (tr : List (PreviewEvent P)) :
    confirmedPreviews (PreviewEvent.preview p :: tr) =
      if confirmedBeforeNext tr then p :: confirmedPreviews tr
      else confirmedPreviews tr := rfl

/-- The previews accumulated from a state with a pending preview `p` and
confirmation flag `c`: the run never panics, and the stored previews are the
previously stored ones, then `p` exactly when it is already confirmed or a
confirmation arrives before the next preview or stream end, then the
confirmed previews of the remaining trace. -/
lemma runEvents_pending {P : Type} :
    ∀ (tr : List (PreviewEvent P)) (prev : List P) (p : P) (c : Bool),
      ∃ s', runEvents ⟨prev, some p, c⟩ tr = some s' ∧
        s'.previews =
          prev ++ (if c || confirmedBeforeNext tr then [p] else []) ++
            confirmedPreviews tr := by
  intro tr
  induction tr with
  | nil =>
    intro prev p c
    cases c
    · exact ⟨⟨prev, some p, false⟩, rfl,
        by simp [confirmedBeforeNext_nil, confirmedPreviews_nil]⟩
    · exact ⟨⟨prev ++ [p], none, true⟩, rfl,
        by simp [confirmedBeforeNext_nil, confirmedPreviews_nil]⟩
  | cons e tr ih =>
    intro prev p c
    cases e with
    | confirm =>
      obtain ⟨s', h1, h2⟩ := ih prev p true
      refine ⟨s', ?_, ?_⟩
      · simpa [runEvents, stepEvent] using h1
      · rw [h2]
        simp [confirmedBeforeNext_confirm, confirmedPreviews_confirm]
    | preview q =>
      cases c
      · obtain ⟨s', h1, h2⟩ := ih prev q false
        refine ⟨s', ?_, ?_⟩
        · simpa [runEvents, stepEvent, addTagPreview] using h1
        · rw [h2]
          cases hcb : confirmedBeforeNext tr <;>
            simp [confirmedBeforeNext_preview, confirmedPreviews_preview,
              hcb]
      · obtain ⟨s', h1, h2⟩ := ih (prev ++ [p]) q false
        refine ⟨s', ?_, ?_⟩
        · simpa [runEvents, stepEvent, addTagPreview,
            storePendingPreview] using h1
        · rw [h2]
          cases hcb : confirmedBeforeNext tr <;>
            simp [confirmedBeforeNext_preview, confirmedPreviews_preview,
              hcb]

/-- C5: preview/confirm protocol. Over any run of the preview-mode parse in
which the confirmation handler is only invoked after some preview was
delivered, the parse completes without hitting the missing-pending-preview
panic and the stored previews are exactly the previews that were confirmed
before the next preview arrival or stream end, in order, each stored exactly
once; a preview never confirmed before the next preview (or stream end)
never appears. -/
theorem c5_preview_confirm {P : Type} (tr : List (PreviewEvent P))
    (hwf : noLeadingConfirm tr = true) :
    ∃ s', parseRun tr = some s' ∧ s'.previews = confirmedPreviews tr := by
  cases tr with
  | nil => exact ⟨⟨[], none, false⟩, rfl, rfl⟩
  | cons e tr =>
    cases e with
    | confirm => simp [noLeadingConfirm] at hwf
    | preview p =>
      obtain ⟨s', h1, h2⟩ := runEvents_pending tr [] p false
      refine ⟨s', ?_, ?_⟩
      · simpa [parseRun, runEvents, stepEvent, addTagPreview] using h1
      · rw [h2]
        cases hcb : confirmedBeforeNext tr <;>
          simp [confirmedPreviews_preview, hcb]

/-- A concrete interaction trace: preview 1 is confirmed before preview 2
arrives, preview 2 is dropped by the arrival of preview 3, and preview 3 is
confirmed before stream end. -/
def c5Trace : List (PreviewEvent Nat) :=
  [PreviewEvent.preview 1, PreviewEvent.confirm, PreviewEvent.preview 2,
   PreviewEvent.preview 3, PreviewEvent.confirm]

/-- C5 witness: on the concrete trace the stored previews are exactly the
confirmed ones, `[1, 3]`. -/
theorem c5_witness :
    noLeadingConfirm c5Trace = true ∧
    confirmedPreviews c5Trace = [1, 3] ∧
    ∃ s', parseRun c5Trace = some s' ∧
      s'.previews = confirmedPreviews c5Trace :=
  ⟨rfl, rfl, c5_preview_confirm c5Trace rfl⟩

/-- The raw bytes of `<a p=x q=y>`: a start tag named `a` (span 1..2) with
attributes `p` (name span 3..4, value span 5..6, value `x`) and `q` (name
span 7..8, value span 9..10, value `y`). -/
def c7Raw : List Nat := [60, 97, 32, 112, 61, 120, 32, 113, 61, 121, 62]

/-- The `StartTag` lex result for `<a p=x q=y>`. -/
def c7LexResult : LexResult :=
  ⟨TokenDescriptor.startTag ⟨1, 2⟩
    [⟨⟨3, 4⟩, ⟨5, 6⟩⟩, ⟨⟨7, 8⟩, ⟨9, 10⟩⟩] false, some c7Raw⟩

/-- C7 evaluation: converting the `StartTag` lex result for `<a p=x q=y>`
(with identity decoders) produces an attribute map containing the single
entry keyed by the tag name `a` (byte 97) with the first attribute's value
`x` (byte 120); the attribute names `p` (byte 112) and `q` (byte 113) do not
appear as keys at all, because the source keys every entry by
`name.as_string(raw)` — the tag-name span — instead of the attribute's name
span. The claimed name-to-value mapping (keys `p` and `q`) is therefore not
what the code builds. -/
theorem c7_attr_key_eval :
    lexResultToTestToken id id c7LexResult =
      some (TestToken.startTag [97] [([97], [120])] false) ∧
    hashMapGet [([97], [120])] [112] = none ∧
    hashMapGet [([97], [120])] [113] = none ∧
    hashMapGet [([97], [120])] [97] = some [120] := by
  refine ⟨by decide, rfl, rfl, rfl⟩

/-- C10: partiality of the lex-result conversion. For arbitrary decoders,
the conversion succeeds (does not reach the `unreachable` panic) exactly
when the descriptor/raw pairing satisfies the precondition: the descriptor
is `Eof` precisely when the raw byte span is absent. In particular, under
that precondition the panic branch is never taken. -/
theorem c10_conversion_totality (dc da : List Nat → List Nat)
    (lr : LexResult) :
    (lexResultToTestToken dc da lr).isSome = true ↔
      (lr.token_descr = TokenDescriptor.eof ↔ lr.raw = none) := by
  obtain ⟨d, r⟩ := lr
  cases d <;> cases r <;> simp [lexResultToTestToken]

end LolHtml
